import Mathlib

/-!
Formal model of the realtime synchronization core of the beads-web-ui
repository: the RPC client (`src/server/rpc/client.ts`), the mutation poller
(`src/server/websocket/mutation-poller.ts`) and the WebSocket broadcast hub
(`src/server/websocket/server.ts`).  Each definition is a shallow embedding of
the corresponding TypeScript function; machine-level effects (socket writes,
logging) are modelled as returned data, and the maps (`pendingRequests`,
`clients`) as association lists in insertion order, matching JS `Map`.
-/

namespace BeadsRPCClient

/-- Shape of an inbound RPC response (client.ts `RPCResponse`): `id` may be
absent, `error.message` is carried when `error` is set, otherwise `result`
(of opaque payload type `α`) is delivered. -/
structure RPCResponse (α : Type) where
  id : Option Nat
  error : Option String
  result : Option α
  deriving DecidableEq

/-- How one pending request's promise was settled: `resolve(value)` or
`reject(new Error(msg))`. -/
inductive Outcome (α : Type) where
  | resolved (v : Option α)
  | rejected (msg : String)
  deriving DecidableEq

/-- The settlement `handleResponse` performs for a given response
(client.ts lines 174-178). -/
def outcomeOf {α : Type} (r : RPCResponse α) : Outcome α :=
  match r.error with
  | some msg => Outcome.rejected msg
  | none => Outcome.resolved r.result

/-- State of a `BeadsRPCClient` instance (client.ts fields).  `pending` holds
the keys of the `pendingRequests` map; `settled` is the log of promise
settlements (each entry is one invocation of a stored `resolve`/`reject`
callback), recording which caller got which outcome. -/
structure ClientState (α : Type) where
  connected : Bool
  requestId : Nat
  pending : List Nat
  settled : List (Nat × Outcome α)
  reconnectTimer : Bool
  reconnectAttempts : Nat
  deriving DecidableEq

/-- `maxReconnectAttempts` (client.ts line 70). -/
def maxReconnectAttempts : Nat := 5

/-- The fixed per-request timeout in milliseconds (client.ts line 205). -/
def requestTimeoutMs : Nat := 30000

/-- All settlements recorded for the call with correlation id `id`. -/
def settledOutcomes {α : Type} (s : ClientState α) (id : Nat) : List (Outcome α) :=
  (s.settled.filter (fun e => e.1 = id)).map (fun e => e.2)

/-- `handleResponse` (client.ts lines 169-180): look up the pending entry by
the response's id; when found, delete it and settle the caller (reject on
`error`, resolve on success); when the id is absent or matches nothing, do
nothing. -/
def handleResponse {α : Type} (s : ClientState α) (r : RPCResponse α) : ClientState α :=
  match r.id with
  | none => s
  | some rid =>
    if rid ∈ s.pending then
      { s with
        pending := s.pending.filter (fun i => i ≠ rid)
        settled := s.settled ++ [(rid, outcomeOf r)] }
    else s

/-- Feeding a sequence of responses through `handleResponse` in arrival
order. -/
def handleResponses {α : Type} (s : ClientState α) (rs : List (RPCResponse α)) : ClientState α :=
  rs.foldl handleResponse s

/-- `request` (client.ts lines 185-207): fails synchronously when not
connected; otherwise allocates the next correlation id, stores a pending
entry, writes the frame, and schedules a timeout of `requestTimeoutMs`.
Returns the new state, the allocated id and the scheduled timeout. -/
def request {α : Type} (s : ClientState α) :
    Except String (ClientState α × Nat × Nat) :=
  if s.connected then
    let id := s.requestId + 1
    Except.ok ({ s with requestId := id, pending := s.pending ++ [id] }, id, requestTimeoutMs)
  else
    Except.error "Not connected to daemon"

/-- The per-request timeout callback (client.ts lines 200-205): when the id
is still pending, delete it and reject with "Request timeout"; otherwise do
nothing. -/
def requestTimeoutFired {α : Type} (s : ClientState α) (id : Nat) : ClientState α :=
  if id ∈ s.pending then
    { s with
      pending := s.pending.filter (fun i => i ≠ id)
      settled := s.settled ++ [(id, Outcome.rejected "Request timeout")] }
  else s

/-- `disconnect` (client.ts lines 251-264): clears the reconnect timer,
destroys the socket, sets `connected := false` and calls
`pendingRequests.clear()` — the map entries are removed WITHOUT settling the
stored promises (`settled` is untouched). -/
def disconnect {α : Type} (s : ClientState α) : ClientState α :=
  { s with reconnectTimer := false, connected := false, pending := [] }

/-- `attemptReconnect` (client.ts lines 121-142): no-op when a timer is
already armed or the attempt budget is exhausted; otherwise increments the
attempt counter, computes `min(1000 * 2 ^ attempts, 30000)` with the
incremented counter, and arms the timer.  Returns the new state and the
scheduled delay, if any. -/
def attemptReconnect {α : Type} (s : ClientState α) : ClientState α × Option Nat :=
  if s.reconnectTimer then (s, none)
  else if maxReconnectAttempts ≤ s.reconnectAttempts then (s, none)
  else
    let attempts := s.reconnectAttempts + 1
    let delay := min (1000 * 2 ^ attempts) 30000
    ({ s with reconnectAttempts := attempts, reconnectTimer := true }, some delay)

/-- The socket `close` handler (client.ts lines 109-114): marks the client
disconnected and calls `attemptReconnect`.  Pending requests are not
touched. -/
def onClose {α : Type} (s : ClientState α) : ClientState α × Option Nat :=
  attemptReconnect { s with connected := false }

/-- The socket `connect` handler (client.ts lines 89-95): marks connected and
resets the reconnect-attempt counter. -/
def onConnect {α : Type} (s : ClientState α) : ClientState α :=
  { s with connected := true, reconnectAttempts := 0 }

/-- One full failed automatic reconnect cycle, iterated `k` times: the armed
timer fires (clearing `reconnectTimer`, client.ts line 137), `connect()`
fails, the socket's `close` event runs `attemptReconnect` again.  Returns the
list of scheduled delays, in order. -/
def reconnectDelays {α : Type} (s : ClientState α) : Nat → List Nat
  | 0 => []
  | k + 1 =>
    match attemptReconnect s with
    | (_, none) => []
    | (s1, some d) =>
      d :: reconnectDelays { s1 with reconnectTimer := false, connected := false } k

/-- Well-formedness maintained by the client: pending correlation ids are
pairwise distinct (each is a fresh `++requestId`), no pending call has
already been settled, and every pending id was allocated from the counter. -/
def WFClient {α : Type} (s : ClientState α) : Prop :=
  s.pending.Nodup ∧
  (∀ id ∈ s.pending, ∀ e ∈ s.settled, e.1 ≠ id) ∧
  (∀ id ∈ s.pending, id ≤ s.requestId) ∧
  (∀ e ∈ s.settled, e.1 ≤ s.requestId)

instance {α : Type} (s : ClientState α) : Decidable (WFClient s) := by
  unfold WFClient
  infer_instance

/-- The client state after `request` succeeds (the `id := ++this.requestId`
allocation plus the `pendingRequests.set` insertion). -/
def afterRequest {α : Type} (s : ClientState α) : ClientState α :=
  { s with requestId := s.requestId + 1, pending := s.pending ++ [s.requestId + 1] }

/-- A concrete client state with exactly one outstanding pending call
(correlation id 1) and an armed reconnect timer. -/
def cexClientState : ClientState Nat :=
  { connected := true, requestId := 1, pending := [1], settled := [],
    reconnectTimer := true, reconnectAttempts := 0 }

/-- A concrete well-formed state with two concurrent pending calls. -/
def cex2State : ClientState Nat :=
  { connected := true, requestId := 2, pending := [1, 2], settled := [],
    reconnectTimer := false, reconnectAttempts := 0 }

/-- A concrete arrival order: call 2's response first, then call 1's error
response, then a stray response with unknown token 7. -/
def cex2Responses : List (RPCResponse Nat) :=
  [{ id := some 2, error := none, result := some 42 },
   { id := some 1, error := some "boom", result := none },
   { id := some 7, error := none, result := some 9 }]

/-- JS `buffer.split('\n')` on character lists (client.ts line 151): splits
at every newline, keeping empty segments; the result is always nonempty, its
last element being the text after the final newline. -/
def splitNl : List Char → List (List Char)
  | [] => [[]]
  | c :: cs =>
    match splitNl cs with
    | [] => [[]]
    | seg :: rest =>
      if c = '\n' then [] :: seg :: rest else (c :: seg) :: rest

/-- The `split` + `pop` view of the receive buffer, computed left-to-right:
the complete newline-terminated frames and the undelimited remainder. -/
def scanFrames : List Char → List (List Char) × List Char
  | [] => ([], [])
  | c :: cs =>
    let p := scanFrames cs
    if c = '\n' then ([] :: p.1, p.2)
    else
      match p.1 with
      | [] => ([], c :: p.2)
      | f :: fs => ((c :: f) :: fs, p.2)

/-- JS `line.trim()` truthiness (client.ts line 155): a segment counts as
payload when it contains a non-whitespace character. -/
def nonBlank (l : List Char) : Bool :=
  l.any (fun c => !c.isWhitespace)

/-- The for-loop over complete segments (client.ts lines 154-163): each
nonblank segment is parsed — `parse` abstracts `JSON.parse` plus the
`RPCResponse` reading — and handed to `handleResponse` in order; a segment
that fails to parse is logged and dropped. -/
def handledOf {α : Type} (parse : List Char → Option (RPCResponse α))
    (lines : List (List Char)) : List (RPCResponse α) :=
  lines.filterMap (fun l => if nonBlank l then parse l else none)

/-- `handleData` (client.ts lines 147-164): append the incoming chunk to the
buffer, split on newlines, pop the final (undelimited) segment as the new
buffer, and handle each complete segment.  Returns the new buffer and the
responses handled, in order. -/
def handleData {α : Type} (parse : List Char → Option (RPCResponse α))
    (buf chunk : List Char) : List Char × List (RPCResponse α) :=
  ((splitNl (buf ++ chunk)).getLastD [],
   handledOf parse (splitNl (buf ++ chunk)).dropLast)

/-- Delivering a byte stream in several partial socket receives: iterate
`handleData` over the chunks, concatenating the handled responses. -/
def feedChunks {α : Type} (parse : List Char → Option (RPCResponse α)) :
    List Char → List (List Char) → List Char × List (RPCResponse α)
  | buf, [] => (buf, [])
  | buf, chunk :: chunks =>
    let step := handleData parse buf chunk
    let rest := feedChunks parse step.1 chunks
    (rest.1, step.2 ++ rest.2)

/-- A concrete parse function standing in for `JSON.parse` plus response
reading: only the segment "ok" parses. -/
def cexParse (l : List Char) : Option (RPCResponse Nat) :=
  if l = ['o', 'k'] then some { id := some 1, error := none, result := some 5 }
  else none

end BeadsRPCClient

namespace MutationPoller

/-- A mutation event from the daemon (client.ts `MutationEvent`). -/
structure MutationEvent where
  id : Nat
  timestamp : String
  operation : String
  issue_id : String
  deriving DecidableEq

/-- Poller state (mutation-poller.ts fields): the `lastEventId` cursor and
the running flag. -/
structure PollerState where
  lastEventId : Nat
  isPolling : Bool
  deriving DecidableEq

/-- The events a poll emits: the whole batch as one `mutations` event, and
each record as an individual `mutation` event. -/
inductive Emission where
  | batch (ms : List MutationEvent)
  | single (m : MutationEvent)
  deriving DecidableEq

/-- One `poll()` step (mutation-poller.ts lines 52-84): skip when the RPC
client is not connected; `result` is the settled outcome of
`getMutations(lastEventId)` (an `error` covers both a rejected call and a
throw while processing).  On a non-empty batch, advance the cursor to the
maximum event id when it exceeds the current cursor (`Math.max` over the
non-empty id list is its fold by `max` from 0), then emit the batch and each
record; otherwise leave everything unchanged and emit nothing.  Errors are
logged and leave the state unchanged. -/
def poll (connected : Bool) (result : Except String (List MutationEvent))
    (st : PollerState) : PollerState × List Emission :=
  if ¬ connected then (st, [])
  else
    match result with
    | Except.error _ => (st, [])
    | Except.ok mutations =>
      if 0 < mutations.length then
        let maxId := (mutations.map (fun m => m.id)).foldl max 0
        let st2 := if st.lastEventId < maxId then { st with lastEventId := maxId } else st
        (st2, Emission.batch mutations :: mutations.map Emission.single)
      else (st, [])

/-- `reset` (mutation-poller.ts lines 116-118). -/
def reset (st : PollerState) : PollerState :=
  { st with lastEventId := 0 }

end MutationPoller

namespace BeadsWebSocketServer

/-- WebSocket `readyState` OPEN (the `ws` library constant). -/
def OPEN : Nat := 1

/-- The observable state of one observer's underlying socket: its
`readyState` and whether `send` currently throws. -/
structure Socket where
  readyState : Nat
  sendFails : Bool
  deriving DecidableEq

/-- `WebSocketClient` (server.ts lines 16-20).  The source keys the clients
map by the string `client-` followed by the decimal counter value; the
prefix is fixed and decimal rendering is injective, so the embedding keys by
the counter value itself. -/
structure WSClient where
  ws : Socket
  id : Nat
  lastPing : Nat
  deriving DecidableEq

/-- Envelope of a WebSocket message (server.ts `WebSocketMessage`), the
`data` payload kept opaque. -/
structure WebSocketMessage where
  type : String
  data : Option String
  timestamp : String
  deriving DecidableEq

/-- Hub state: the `clients` map — an association list in insertion order,
as JS `Map` — and the `nextClientId` counter (server.ts lines 27-29). -/
structure HubState where
  clients : List (Nat × WSClient)
  nextClientId : Nat
  deriving DecidableEq

/-- `this.clients.delete(clientId)` — the removal statement shared by the
close handler, the error handler and the liveness eviction. -/
def mapDelete (k : Nat) (m : List (Nat × WSClient)) : List (Nat × WSClient) :=
  m.filter (fun e => e.1 ≠ k)

/-- `this.clients.set(clientId, client)` — JS `Map.set`: replaces in place
when the key exists, appends otherwise. -/
def mapSet (k : Nat) (v : WSClient) (m : List (Nat × WSClient)) : List (Nat × WSClient) :=
  if k ∈ m.map (fun e => e.1) then
    m.map (fun e => if e.1 = k then (k, v) else e)
  else m ++ [(k, v)]

/-- The keys of the clients map. -/
def keys (m : List (Nat × WSClient)) : List Nat :=
  m.map (fun e => e.1)

/-- `handleConnection` (server.ts lines 53-94): allocate
`client-${this.nextClientId++}`, insert the new client with
`lastPing := Date.now()`, send the welcome ping and wire the handlers.
Returns the new hub state and the new client's key. -/
def handleConnection (ws : Socket) (now : Nat) (h : HubState) : HubState × Nat :=
  let clientId := h.nextClientId
  ({ clients := mapSet clientId { ws := ws, id := clientId, lastPing := now } h.clients,
     nextClientId := h.nextClientId + 1 },
   clientId)

/-- The per-client socket `close` handler (server.ts lines 82-85). -/
def onSocketClose (clientId : Nat) (h : HubState) : HubState :=
  { h with clients := mapDelete clientId h.clients }

/-- The per-client socket `error` handler (server.ts lines 88-91). -/
def onSocketError (clientId : Nat) (h : HubState) : HubState :=
  { h with clients := mapDelete clientId h.clients }

/-- The `client.lastPing = Date.now()` assignment on the entry stored under
`clientId` (server.ts line 104). -/
def refreshPong (clientId : Nat) (now : Nat) (m : List (Nat × WSClient)) :
    List (Nat × WSClient) :=
  m.map (fun e => if e.1 = clientId then (e.1, { e.2 with lastPing := now }) else e)

/-- `handleMessage` (server.ts lines 99-109): a `pong` refreshes the
sender's `lastPing`; any other message type is logged and ignored. -/
def handleMessage (clientId : Nat) (now : Nat) (msg : WebSocketMessage)
    (h : HubState) : HubState :=
  if msg.type = "pong" then
    { h with clients := refreshPong clientId now h.clients }
  else h

/-- The per-connection `message` handler (server.ts lines 72-79): parse the
raw payload — `parseMsg` abstracts `JSON.parse` — and dispatch; a parse
failure is logged and the hub state is untouched. -/
def onObserverMessage (parseMsg : List Char → Option WebSocketMessage)
    (clientId : Nat) (now : Nat) (raw : List Char) (h : HubState) : HubState :=
  match parseMsg raw with
  | some m => handleMessage clientId now m h
  | none => h

/-- `broadcast` (server.ts lines 127-145): serialize the message ONCE —
`stringify` abstracts `JSON.stringify` — then loop over the clients map,
sending the same bytes to every client whose socket is open; a throwing
`send` is caught and logged and the loop continues.  Returns the list of
(client key, bytes) pairs for which `ws.send(data)` was invoked, and the
`sent` count of sends that completed without throwing. -/
def broadcast (stringify : WebSocketMessage → String) (msg : WebSocketMessage)
    (h : HubState) : List (Nat × String) × Nat :=
  let data := stringify msg
  h.clients.foldl
    (fun acc e =>
      if e.2.ws.readyState = OPEN then
        (acc.1 ++ [(e.1, data)], if e.2.ws.sendFails then acc.2 else acc.2 + 1)
      else acc)
    ([], 0)

/-- The keepalive timeout window in ms (server.ts line 153). -/
def pingTimeoutMs : Nat := 60000

/-- The sweep interval in ms (server.ts line 172). -/
def pingIntervalMs : Nat := 30000

/-- Whether an observer's last liveness acknowledgment is older than the
timeout window at time `now` (server.ts line 157; truncated subtraction
agrees with the JS comparison for clock values). -/
def stale (now : Nat) (e : Nat × WSClient) : Prop :=
  pingTimeoutMs < now - e.2.lastPing

instance (now : Nat) (e : Nat × WSClient) : Decidable (stale now e) := by
  unfold stale
  infer_instance

/-- One tick of the liveness sweep (server.ts lines 151-172): for each
client, if it is stale, terminate its socket and delete it from the map;
otherwise, if its socket is open, send it a ping.  Returns the new hub
state, the keys terminated and the keys sent a keepalive probe. -/
def sweepTick (now : Nat) (h : HubState) : HubState × List Nat × List Nat :=
  h.clients.foldl
    (fun acc e =>
      if stale now e then
        ({ acc.1 with clients := mapDelete e.1 acc.1.clients },
         acc.2.1 ++ [e.1], acc.2.2)
      else if e.2.ws.readyState = OPEN then
        (acc.1, acc.2.1, acc.2.2 ++ [e.1])
      else acc)
    (h, [], [])

/-- `getClientCount` (server.ts lines 178-180): `this.clients.size`. -/
def getClientCount (h : HubState) : Nat :=
  h.clients.length

/-- Hub well-formedness: map keys are pairwise distinct (a JS `Map`
invariant) and every key was allocated from the counter. -/
def WFHub (h : HubState) : Prop :=
  (keys h.clients).Nodup ∧ ∀ e ∈ h.clients, e.1 < h.nextClientId

instance (h : HubState) : Decidable (WFHub h) := by
  unfold WFHub keys
  infer_instance

/-- `k` successive accepted connections (same socket parameters and
clock). -/
def acceptK (ws : Socket) (now : Nat) (h : HubState) : Nat → HubState
  | 0 => h
  | k + 1 => acceptK ws now (handleConnection ws now h).1 k

/-- Removing a list of observers through the close-handler path. -/
def removeAll (js : List Nat) (h : HubState) : HubState :=
  js.foldl (fun h2 j => onSocketClose j h2) h

/-- An open socket whose sends succeed. -/
def okSocket : Socket := { readyState := OPEN, sendFails := false }

/-- An open socket whose sends throw. -/
def failSocket : Socket := { readyState := OPEN, sendFails := true }

/-- A socket in CLOSED state (readyState 3). -/
def closedSocket : Socket := { readyState := 3, sendFails := false }

/-- A concrete hub: observer 1 open and fresh, observer 2 open but stale,
observer 3 fresh but with a non-open socket. -/
def cexHub : HubState :=
  { clients := [
      (1, { ws := okSocket, id := 1, lastPing := 100000 }),
      (2, { ws := okSocket, id := 2, lastPing := 0 }),
      (3, { ws := closedSocket, id := 3, lastPing := 100000 })],
    nextClientId := 4 }

/-- A concrete broadcast payload. -/
def cexMsg : WebSocketMessage :=
  { type := "mutation", data := some "x", timestamp := "t" }

/-- A concrete serialization function standing in for `JSON.stringify`. -/
def cexStringify (m : WebSocketMessage) : String :=
  m.type ++ m.timestamp

end BeadsWebSocketServer

namespace BeadsRPCClient

/-- `handleResponse` only ever removes pending entries. -/
theorem handleResponse_pending_subset {α : Type} (s : ClientState α) (r : RPCResponse α) :
    (handleResponse s r).pending ⊆ s.pending := by
  cases hr : r.id with
  | none => simp [handleResponse, hr]
  | some rid =>
    by_cases hm : rid ∈ s.pending
    · simp only [handleResponse, hr, hm, if_pos]
      intro x hx
      exact List.mem_of_mem_filter hx
    · simp [handleResponse, hr, hm]

/-- A pending call has no settlement yet. -/
theorem settledOutcomes_eq_nil_of_pending {α : Type} (s : ClientState α)
    (hWF : WFClient s) (id : Nat) (hid : id ∈ s.pending) :
    settledOutcomes s id = [] := by
  unfold settledOutcomes
  have : s.settled.filter (fun e => e.1 = id) = [] := by
    rw [List.filter_eq_nil_iff]
    intro e he
    simp only [decide_eq_true_eq]
    exact hWF.2.1 id hid e he
  rw [this]
  rfl

/-- A response never settles a call that is not pending. -/
theorem settledOutcomes_handleResponse_of_not_pending {α : Type} (s : ClientState α)
    (r : RPCResponse α) (id : Nat) (h : id ∉ s.pending) :
    settledOutcomes (handleResponse s r) id = settledOutcomes s id := by
  cases hr : r.id with
  | none => simp [handleResponse, hr]
  | some rid =>
    by_cases hm : rid ∈ s.pending
    · have hne : ¬ (rid = id) := fun hco => h (hco ▸ hm)
      simp [handleResponse, hr, hm, settledOutcomes, List.filter_append, hne]
    · simp [handleResponse, hr, hm]

/-- A response whose token matches no pending entry leaves the whole client
state unchanged. -/
theorem handleResponse_of_not_pending {α : Type} (s : ClientState α) (r : RPCResponse α)
    (rid : Nat) (hr : r.id = some rid) (hm : rid ∉ s.pending) :
    handleResponse s r = s := by
  simp [handleResponse, hr, hm]

/-- Once a call is out of the pending map, no later sequence of responses can
settle it again: its settlement log is frozen. -/
theorem settledOutcomes_handleResponses_of_not_pending {α : Type}
    (rs : List (RPCResponse α)) (s : ClientState α) (id : Nat) (h : id ∉ s.pending) :
    settledOutcomes (handleResponses s rs) id = settledOutcomes s id := by
  induction rs generalizing s with
  | nil => rfl
  | cons r rs ih =>
    have h2 : id ∉ (handleResponse s r).pending :=
      fun hc => h (handleResponse_pending_subset s r hc)
    show settledOutcomes (handleResponses (handleResponse s r) rs) id = _
    rw [ih _ h2, settledOutcomes_handleResponse_of_not_pending s r id h]

/-- `handleResponse` preserves client well-formedness. -/
theorem WFClient_handleResponse {α : Type} (s : ClientState α) (r : RPCResponse α)
    (hWF : WFClient s) : WFClient (handleResponse s r) := by
  cases hr : r.id with
  | none => simpa [handleResponse, hr] using hWF
  | some rid =>
    by_cases hm : rid ∈ s.pending
    · simp only [handleResponse, hr, hm, if_pos]
      refine ⟨List.Nodup.filter _ hWF.1, ?_, ?_, ?_⟩
      · intro id hid e he
        have hid' : id ∈ s.pending := List.mem_of_mem_filter hid
        have hne : ¬ (id = rid) := by
          have := List.of_mem_filter hid
          simpa using this
        rcases List.mem_append.mp he with he1 | he2
        · exact hWF.2.1 id hid' e he1
        · simp only [List.mem_singleton] at he2
          subst he2
          simp only []
          intro hco
          exact hne (by omega)
      · intro id hid
        exact hWF.2.2.1 id (List.mem_of_mem_filter hid)
      · intro e he
        rcases List.mem_append.mp he with he1 | he2
        · exact hWF.2.2.2 e he1
        · simp only [List.mem_singleton] at he2
          subst he2
          exact hWF.2.2.1 rid hm
    · simpa [handleResponse, hr, hm] using hWF

/-- Characterization of the multiplexer's correlation behavior: after any
sequence of responses arrives in any order, a call that was pending is
settled by exactly the FIRST response carrying its own correlation token (and
by nothing, when no response carries its token). -/
theorem settledOutcomes_handleResponses_char {α : Type} (rs : List (RPCResponse α))
    (s : ClientState α) (hWF : WFClient s) (id : Nat) (hid : id ∈ s.pending) :
    settledOutcomes (handleResponses s rs) id =
      (match rs.find? (fun r => decide (r.id = some id)) with
       | some r => [outcomeOf r]
       | none => []) := by
  induction rs generalizing s with
  | nil =>
    simpa [handleResponses, List.find?] using settledOutcomes_eq_nil_of_pending s hWF id hid
  | cons r rs ih =>
    show settledOutcomes (handleResponses (handleResponse s r) rs) id = _
    cases hr : r.id with
    | none =>
      have hs : handleResponse s r = s := by simp [handleResponse, hr]
      rw [hs, ih s hWF hid]
      simp [List.find?, hr]
    | some rid =>
      by_cases hm : rid ∈ s.pending
      · by_cases heq : rid = id
        · have hr' : r.id = some id := by rw [hr, heq]
          have hnp : id ∉ (handleResponse s r).pending := by
            simp [handleResponse, hr', hid, List.mem_filter]
          rw [settledOutcomes_handleResponses_of_not_pending rs _ id hnp]
          have hset : settledOutcomes (handleResponse s r) id
              = settledOutcomes s id ++ [outcomeOf r] := by
            simp [handleResponse, hr', hid, settledOutcomes, List.filter_append]
          rw [hset, settledOutcomes_eq_nil_of_pending s hWF id hid]
          rw [List.find?_cons_of_pos _ (by simp [hr'])]
          simp
        · have hid' : id ∈ (handleResponse s r).pending := by
            simp only [handleResponse, hr, hm, if_pos]
            exact List.mem_filter.mpr ⟨hid, by simpa using fun hco => heq (by omega)⟩
          rw [ih _ (WFClient_handleResponse s r hWF) hid']
          have : (List.find? (fun r => decide (r.id = some id)) (r :: rs))
              = List.find? (fun r => decide (r.id = some id)) rs := by
            simp [List.find?, hr, heq]
          rw [this]
      · have hs : handleResponse s r = s := by simp [handleResponse, hr, hm]
        have hne : ¬ (rid = id) := fun hco => hm (hco ▸ hid)
        rw [hs, ih s hWF hid]
        simp [List.find?, hr, hne]

/-- C2: correlation uniqueness.  For any set of concurrently pending calls
and any arrival order of responses, each pending caller is settled exactly
once, with exactly the (first) response carrying its own correlation token —
never another caller's — and a response whose token matches no PendingCall
resolves no caller and leaves the state unchanged; moreover `request` on a
well-formed connected state allocates a token distinct from every pending
one, so concurrent calls never share a token. -/
theorem C2_correlation_uniqueness {α : Type} (s : ClientState α) (hWF : WFClient s)
    (rs : List (RPCResponse α)) (id : Nat) (hid : id ∈ s.pending) :
    settledOutcomes (handleResponses s rs) id =
      (match rs.find? (fun r => decide (r.id = some id)) with
       | some r => [outcomeOf r]
       | none => []) ∧
    (settledOutcomes (handleResponses s rs) id).length ≤ 1 ∧
    (∀ r : RPCResponse α, (∀ rid, r.id = some rid → rid ∉ s.pending) →
      handleResponse s r = s) ∧
    (s.connected = true →
      request s = Except.ok (afterRequest s, s.requestId + 1, requestTimeoutMs) ∧
      s.requestId + 1 ∉ s.pending ∧ WFClient (afterRequest s)) := by
  have hchar := settledOutcomes_handleResponses_char rs s hWF id hid
  refine ⟨hchar, ?_, ?_, ?_⟩
  · rw [hchar]
    cases rs.find? (fun r => decide (r.id = some id)) <;> simp
  · intro r hnone
    cases hr : r.id with
    | none => simp [handleResponse, hr]
    | some rid => simp [handleResponse, hr, hnone rid hr]
  · intro hc
    unfold WFClient afterRequest
    dsimp only
    refine ⟨?_, ?_, ?_, ?_, ?_, ?_⟩
    · simp [request, afterRequest, hc]
    · intro hmem
      exact absurd (hWF.2.2.1 _ hmem) (by omega)
    · refine List.Nodup.append hWF.1 (List.nodup_singleton _) ?_
      intro x hx hy
      simp only [List.mem_singleton] at hy
      subst hy
      exact absurd (hWF.2.2.1 _ hx) (by omega)
    · intro i hi e he
      rcases List.mem_append.mp hi with hi1 | hi2
      · exact hWF.2.1 i hi1 e he
      · simp only [List.mem_singleton] at hi2
        subst hi2
        have := hWF.2.2.2 e he
        omega
    · intro i hi
      rcases List.mem_append.mp hi with hi1 | hi2
      · exact Nat.le_trans (hWF.2.2.1 i hi1) (by omega)
      · simp only [List.mem_singleton] at hi2
        omega
    · intro e he
      exact Nat.le_trans (hWF.2.2.2 e he) (by omega)

/-- Witness for C2 at the concrete two-call state. -/
theorem C2_correlation_uniqueness_witness :
    settledOutcomes (handleResponses cex2State cex2Responses) 1 =
      (match cex2Responses.find? (fun r => decide (r.id = some 1)) with
       | some r => [outcomeOf r]
       | none => []) :=
  (C2_correlation_uniqueness cex2State (by decide) cex2Responses 1 (by decide)).1

/-- C3: per-call deadlines.  Every `request` on a connected client schedules
the fixed `requestTimeoutMs = 30000` deadline; when the timeout callback for
call `id` fires while `id` is still pending, exactly that call is rejected
with "Request timeout" and its entry removed, so a late response carrying its
token settles nothing; a concurrently outstanding call `id2` stays pending
with its settlement log untouched. -/
theorem C3_request_timeout {α : Type} (s : ClientState α) (hWF : WFClient s)
    (id id2 : Nat) (h1 : id ∈ s.pending) (h2 : id2 ∈ s.pending) (hne : id ≠ id2)
    (r : RPCResponse α) (hr : r.id = some id) :
    (s.connected = true →
      request s = Except.ok (afterRequest s, s.requestId + 1, requestTimeoutMs)) ∧
    settledOutcomes (requestTimeoutFired s id) id = [Outcome.rejected "Request timeout"] ∧
    id ∉ (requestTimeoutFired s id).pending ∧
    handleResponse (requestTimeoutFired s id) r = requestTimeoutFired s id ∧
    id2 ∈ (requestTimeoutFired s id).pending ∧
    settledOutcomes (requestTimeoutFired s id) id2 = settledOutcomes s id2 := by
  have hnp : id ∉ (requestTimeoutFired s id).pending := by
    simp [requestTimeoutFired, h1, List.mem_filter]
  refine ⟨?_, ?_, hnp, ?_, ?_, ?_⟩
  · intro hc
    simp [request, afterRequest, hc]
  · have hf : List.filter (fun e => decide (e.1 = id)) s.settled = [] := by
      rw [List.filter_eq_nil_iff]
      intro e he
      simp only [decide_eq_true_eq]
      exact hWF.2.1 id h1 e he
    simp only [requestTimeoutFired, h1, if_pos]
    simp [settledOutcomes, List.filter_append, hf]
  · exact handleResponse_of_not_pending _ r id hr hnp
  · simp only [requestTimeoutFired, h1, if_pos]
    exact List.mem_filter.mpr ⟨h2, by simpa using fun hco => hne hco.symm⟩
  · simp only [requestTimeoutFired, h1, if_pos]
    simp [settledOutcomes, List.filter_append, hne]

/-- Witness for C3 at the concrete two-call state: call 1 times out, call 2
is unaffected. -/
theorem C3_request_timeout_witness :
    settledOutcomes (requestTimeoutFired cex2State 1) 1 =
      [Outcome.rejected "Request timeout"] ∧
    2 ∈ (requestTimeoutFired cex2State 1).pending :=
  ⟨(C3_request_timeout cex2State (by decide) 1 2 (by decide) (by decide) (by decide)
      { id := some 1, error := none, result := none } rfl).2.1,
   (C3_request_timeout cex2State (by decide) 1 2 (by decide) (by decide) (by decide)
      { id := some 1, error := none, result := none } rfl).2.2.2.2.1⟩

/-- `split('\n')` never returns an empty list. -/
theorem splitNl_ne_nil (s : List Char) : splitNl s ≠ [] := by
  cases s with
  | nil => simp [splitNl]
  | cons c cs =>
    cases h : splitNl cs with
    | nil => simp [splitNl, h]
    | cons seg rest =>
      simp only [splitNl, h]
      split_ifs <;> simp

/-- Unfolding `scanFrames` at a newline. -/
theorem scanFrames_cons_nl (cs : List Char) :
    scanFrames ('\n' :: cs) = ([] :: (scanFrames cs).1, (scanFrames cs).2) := by
  simp [scanFrames]

/-- Unfolding `scanFrames` at an ordinary character with no complete frame
behind it. -/
theorem scanFrames_cons_no_frame (c : Char) (cs : List Char) (hc : ¬ c = '\n')
    (hp : (scanFrames cs).1 = []) :
    scanFrames (c :: cs) = ([], c :: (scanFrames cs).2) := by
  simp [scanFrames, hc, hp]

/-- Unfolding `scanFrames` at an ordinary character in front of a complete
frame. -/
theorem scanFrames_cons_frame (c : Char) (cs : List Char) (f : List Char)
    (fs : List (List Char)) (hc : ¬ c = '\n') (hp : (scanFrames cs).1 = f :: fs) :
    scanFrames (c :: cs) = ((c :: f) :: fs, (scanFrames cs).2) := by
  simp [scanFrames, hc, hp]

/-- The source's `split` + `pop` decomposition agrees with the frame scan:
the split segments are the complete frames followed by the remainder. -/
theorem splitNl_eq_scanFrames (s : List Char) :
    splitNl s = (scanFrames s).1 ++ [(scanFrames s).2] := by
  induction s with
  | nil => rfl
  | cons c cs ih =>
    by_cases hc : c = '\n'
    · subst hc
      cases h : splitNl cs with
      | nil => exact absurd h (splitNl_ne_nil cs)
      | cons seg rest =>
        rw [h] at ih
        rw [scanFrames_cons_nl]
        simp only [splitNl, h, if_true]
        rw [ih]
        simp
    · cases h : splitNl cs with
      | nil => exact absurd h (splitNl_ne_nil cs)
      | cons seg rest =>
        rw [h] at ih
        cases hp : (scanFrames cs).1 with
        | nil =>
          rw [scanFrames_cons_no_frame c cs hc hp]
          rw [hp] at ih
          simp only [List.nil_append] at ih
          injection ih with ih1 ih2
          simp [splitNl, h, hc, ih1, ih2]
        | cons f fs =>
          rw [scanFrames_cons_frame c cs f fs hc hp]
          rw [hp] at ih
          simp only [List.cons_append] at ih
          injection ih with ih1 ih2
          simp [splitNl, h, hc, ih1, ih2]

/-- Frame-scan composition across a buffer boundary: scanning `a ++ b` yields
the frames of `a` followed by the frames of `a`'s remainder prepended to
`b`. -/
theorem scanFrames_append (a b : List Char) :
    scanFrames (a ++ b) =
      ((scanFrames a).1 ++ (scanFrames ((scanFrames a).2 ++ b)).1,
       (scanFrames ((scanFrames a).2 ++ b)).2) := by
  induction a generalizing b with
  | nil => simp [scanFrames]
  | cons c cs ih =>
    by_cases hc : c = '\n'
    · subst hc
      rw [List.cons_append, scanFrames_cons_nl (cs ++ b), scanFrames_cons_nl cs]
      rw [ih]
      simp
    · cases hp : (scanFrames cs).1 with
      | nil =>
        cases hx : (scanFrames ((scanFrames cs).2 ++ b)).1 with
        | nil =>
          rw [List.cons_append,
            scanFrames_cons_no_frame c (cs ++ b) hc (by rw [ih, hp]; simpa using hx),
            scanFrames_cons_no_frame c cs hc hp]
          rw [List.cons_append, scanFrames_cons_no_frame c ((scanFrames cs).2 ++ b) hc hx]
          rw [ih, hp]
          simp
        | cons f fs =>
          rw [List.cons_append,
            scanFrames_cons_frame c (cs ++ b) f fs hc (by rw [ih, hp]; simpa using hx),
            scanFrames_cons_no_frame c cs hc hp]
          rw [List.cons_append, scanFrames_cons_frame c ((scanFrames cs).2 ++ b) f fs hc hx]
          rw [ih, hp]
          simp
      | cons g gs =>
        rw [List.cons_append,
          scanFrames_cons_frame c (cs ++ b) g (gs ++ (scanFrames ((scanFrames cs).2 ++ b)).1)
            hc (by rw [ih, hp]; simp),
          scanFrames_cons_frame c cs g gs hc hp]
        rw [ih, hp]
        simp

/-- The undelimited remainder never contains a newline. -/
theorem scanFrames_rem_no_nl (s : List Char) : '\n' ∉ (scanFrames s).2 := by
  induction s with
  | nil => simp [scanFrames]
  | cons c cs ih =>
    by_cases hc : c = '\n'
    · subst hc
      rw [scanFrames_cons_nl]
      exact ih
    · cases hp : (scanFrames cs).1 with
      | nil =>
        rw [scanFrames_cons_no_frame c cs hc hp]
        simp only [List.mem_cons]
        rintro (hco | hm)
        · exact hc hco.symm
        · exact ih hm
      | cons f fs =>
        rw [scanFrames_cons_frame c cs f fs hc hp]
        exact ih

/-- A newline-free string is all remainder: no complete frame. -/
theorem scanFrames_of_no_nl (s : List Char) (h : '\n' ∉ s) : scanFrames s = ([], s) := by
  induction s with
  | nil => rfl
  | cons c cs ih =>
    have hc : ¬ c = '\n' := fun hco => h (by simp [hco])
    have hcs : '\n' ∉ cs := fun hm => h (List.mem_cons_of_mem _ hm)
    have h2 := ih hcs
    rw [scanFrames_cons_no_frame c cs hc (by rw [h2]), h2]

/-- `handleData` through the frame-scan view. -/
theorem handleData_eq_scanFrames {α : Type} (parse : List Char → Option (RPCResponse α))
    (buf chunk : List Char) :
    handleData parse buf chunk =
      ((scanFrames (buf ++ chunk)).2, handledOf parse (scanFrames (buf ++ chunk)).1) := by
  unfold handleData
  rw [splitNl_eq_scanFrames, List.dropLast_concat, List.getLastD_concat]

/-- Closed form of the automatic reconnect schedule: starting from any state
with no armed timer, the delays are `min (1000 * 2 ^ (a + i + 1)) 30000` for
`i` ranging over the remaining attempt budget. -/
theorem reconnectDelays_closed_form {α : Type} (k : Nat) (s : ClientState α)
    (ht : s.reconnectTimer = false) :
    reconnectDelays s k =
      (List.range (min k (maxReconnectAttempts - s.reconnectAttempts))).map
        (fun i => min (1000 * 2 ^ (s.reconnectAttempts + i + 1)) 30000) := by
  induction k generalizing s with
  | zero => simp [reconnectDelays]
  | succ k ih =>
    by_cases ha : maxReconnectAttempts ≤ s.reconnectAttempts
    · have hz : maxReconnectAttempts - s.reconnectAttempts = 0 := Nat.sub_eq_zero_of_le ha
      simp [reconnectDelays, attemptReconnect, ht, ha, hz]
    · push_neg at ha
      have hnle : ¬ maxReconnectAttempts ≤ s.reconnectAttempts := Nat.not_le_of_lt ha
      have hsub : maxReconnectAttempts - s.reconnectAttempts
          = (maxReconnectAttempts - (s.reconnectAttempts + 1)) + 1 := by omega
      simp only [reconnectDelays, attemptReconnect, ht, hnle, if_false, Bool.false_eq_true]
      rw [ih _ rfl]
      rw [hsub, Nat.succ_min_succ, List.range_succ_eq_map]
      simp only [List.map_cons, List.map_map]
      congr 1
      apply List.map_congr_left
      intro i hi
      simp only [Function.comp_apply, Nat.succ_eq_add_one]
      have he : s.reconnectAttempts + 1 + i + 1 = s.reconnectAttempts + (i + 1) + 1 := by
        omega
      rw [he]

/-- C1 counterexample: with call id 1 outstanding, an explicit `disconnect()`
removes the PendingCall entry but never settles it — no `ClientDisconnected`
(nor any) rejection is recorded, so the caller is left unresolved forever
(its timeout callback finds the entry gone and also does not reject); and the
socket-close sweep (`onClose`) fails no pending call at all: id 1 is still
pending afterwards with no settlement.  This refutes the claim that every
outstanding PendingCall is failed with `ClientDisconnected` in the same
synchronous sweep. -/
theorem C1_counterexample :
    1 ∈ cexClientState.pending ∧
    settledOutcomes (disconnect cexClientState) 1 = [] ∧
    1 ∉ (disconnect cexClientState).pending ∧
    requestTimeoutFired (disconnect cexClientState) 1 = disconnect cexClientState ∧
    1 ∈ (onClose cexClientState).1.pending ∧
    settledOutcomes (onClose cexClientState).1 1 = [] := by
  decide

/-- C1 (amended): explicit `disconnect()` cancels the reconnect timer, marks
the client disconnected and removes every PendingCall entry WITHOUT settling
it (the settlement log is unchanged); after `disconnect()` a late response or
the timeout callback for a removed id settles nothing.  On the socket-close
transition the pending entries are untouched and unsettled; each such call
fails only later, individually, when its own timeout callback fires with
"Request timeout". -/
theorem C1_disconnect_behavior {α : Type} (s : ClientState α) (id : Nat)
    (h : id ∈ s.pending) :
    (disconnect s).reconnectTimer = false ∧
    (disconnect s).connected = false ∧
    (disconnect s).pending = [] ∧
    (disconnect s).settled = s.settled ∧
    handleResponse (disconnect s) { id := some id, error := none, result := none }
      = disconnect s ∧
    requestTimeoutFired (disconnect s) id = disconnect s ∧
    id ∈ (onClose s).1.pending ∧
    (onClose s).1.settled = s.settled ∧
    settledOutcomes (requestTimeoutFired (onClose s).1 id) id =
      settledOutcomes s id ++ [Outcome.rejected "Request timeout"] := by
  have hclose : (onClose s).1.pending = s.pending ∧ (onClose s).1.settled = s.settled := by
    unfold onClose attemptReconnect
    split_ifs <;> simp
  refine ⟨rfl, rfl, rfl, rfl, ?_, ?_, ?_, hclose.2, ?_⟩
  · simp [handleResponse, disconnect]
  · simp [requestTimeoutFired, disconnect]
  · rw [hclose.1]; exact h
  · have hmem : id ∈ (onClose s).1.pending := by rw [hclose.1]; exact h
    simp only [requestTimeoutFired, hmem, if_pos]
    simp [settledOutcomes, List.filter_append, hclose.2]

/-- Witness for C1_disconnect_behavior at the concrete state above. -/
theorem C1_disconnect_behavior_witness :
    (disconnect cexClientState).pending = [] ∧
    (disconnect cexClientState).settled = cexClientState.settled :=
  ⟨(C1_disconnect_behavior cexClientState 1 (by decide)).2.2.1,
   (C1_disconnect_behavior cexClientState 1 (by decide)).2.2.2.1⟩

/-- C9: reconnect backoff.  Counting automatic reconnect attempts from zero,
attempt `n` is scheduled with delay `min (2000 * 2 ^ n) 30000` (base 2000 ms,
within the stated 1000-2000 ms range, cap 30000 ms); no more than
`maxReconnectAttempts = 5` automatic attempts are ever scheduled — once the
budget is exhausted `attemptReconnect` schedules nothing and leaves the state
unchanged — and the `connect` handler resets the attempt counter to zero. -/
theorem C9_reconnect_backoff {α : Type} (s : ClientState α) (k : Nat)
    (h0 : s.reconnectAttempts = 0) (ht : s.reconnectTimer = false) :
    reconnectDelays s k =
      (List.range (min k maxReconnectAttempts)).map (fun n => min (2000 * 2 ^ n) 30000) ∧
    (reconnectDelays s k).length ≤ maxReconnectAttempts ∧
    (∀ s2 : ClientState α, maxReconnectAttempts ≤ s2.reconnectAttempts →
      attemptReconnect s2 = (s2, none)) ∧
    (onConnect s).reconnectAttempts = 0 := by
  have hmain : reconnectDelays s k =
      (List.range (min k maxReconnectAttempts)).map (fun n => min (2000 * 2 ^ n) 30000) := by
    rw [reconnectDelays_closed_form k s ht, h0]
    simp only [Nat.sub_zero, Nat.zero_add]
    apply List.map_congr_left
    intro i _
    congr 1
    rw [pow_succ]
    ring
  refine ⟨hmain, ?_, ?_, rfl⟩
  · rw [hmain]
    simp [Nat.min_le_right]
  · intro s2 h5
    unfold attemptReconnect
    split_ifs <;> rfl

/-- Witness for C9 at a fresh client state, seven cycles: exactly five
attempts are scheduled, with delays 2000, 4000, 8000, 16000, 30000. -/
theorem C9_reconnect_backoff_witness :
    reconnectDelays
      ({ connected := false, requestId := 0, pending := [], settled := [],
         reconnectTimer := false, reconnectAttempts := 0 } : ClientState Nat) 7 =
      (List.range (min 7 maxReconnectAttempts)).map (fun n => min (2000 * 2 ^ n) 30000) :=
  (C9_reconnect_backoff _ 7 rfl rfl).1

/-- Chunk invariance of the receive loop: feeding any sequence of partial
receives produces exactly the final buffer and handled responses of feeding
the concatenated stream at once, provided the carried buffer is
newline-free — which is invariant: the buffer `handleData` leaves behind
never contains a newline, and the initial buffer is empty. -/
theorem feedChunks_eq_handleData {α : Type} (parse : List Char → Option (RPCResponse α))
    (chunks : List (List Char)) (buf : List Char) (hbuf : '\n' ∉ buf) :
    feedChunks parse buf chunks = handleData parse buf chunks.flatten := by
  induction chunks generalizing buf with
  | nil =>
    show (buf, []) = handleData parse buf [].flatten
    rw [List.flatten_nil, handleData_eq_scanFrames, List.append_nil,
        scanFrames_of_no_nl buf hbuf]
    rfl
  | cons chunk chunks ih =>
    have hrem : '\n' ∉ (handleData parse buf chunk).1 := by
      rw [handleData_eq_scanFrames]
      exact scanFrames_rem_no_nl (buf ++ chunk)
    show ((feedChunks parse (handleData parse buf chunk).1 chunks).1,
          (handleData parse buf chunk).2
            ++ (feedChunks parse (handleData parse buf chunk).1 chunks).2)
        = handleData parse buf (chunk :: chunks).flatten
    rw [ih _ hrem]
    rw [handleData_eq_scanFrames parse buf chunk]
    rw [List.flatten_cons, handleData_eq_scanFrames parse buf (chunk ++ chunks.flatten),
        ← List.append_assoc, scanFrames_append (buf ++ chunk) chunks.flatten]
    rw [handleData_eq_scanFrames]
    unfold handledOf
    rw [List.filterMap_append]

/-- C4: framing is invariant under chunking.  For any carried (newline-free)
buffer and any sequence of partial receives, iterating `handleData` yields
the same final buffer and the same handled-response sequence as receiving
the whole stream at once; the final buffer is again newline-free; a segment
that fails to parse (or is blank) contributes nothing and does not affect
the handling of any surrounding segment; and on the observer channel, a
non-parseable inbound payload leaves the hub state entirely unchanged. -/
theorem C4_framing {α : Type} (parse : List Char → Option (RPCResponse α))
    (chunks : List (List Char)) (buf : List Char) (hbuf : '\n' ∉ buf)
    (pre post : List (List Char)) (bad : List Char)
    (hbad : nonBlank bad = false ∨ parse bad = none)
    (parseMsg : List Char → Option BeadsWebSocketServer.WebSocketMessage)
    (clientId now : Nat) (raw : List Char) (hraw : parseMsg raw = none)
    (hub : BeadsWebSocketServer.HubState) :
    feedChunks parse buf chunks = handleData parse buf chunks.flatten ∧
    '\n' ∉ (feedChunks parse buf chunks).1 ∧
    handledOf parse (pre ++ bad :: post) = handledOf parse pre ++ handledOf parse post ∧
    BeadsWebSocketServer.onObserverMessage parseMsg clientId now raw hub = hub := by
  refine ⟨feedChunks_eq_handleData parse chunks buf hbuf, ?_, ?_, ?_⟩
  · rw [feedChunks_eq_handleData parse chunks buf hbuf, handleData_eq_scanFrames]
    exact scanFrames_rem_no_nl (buf ++ chunks.flatten)
  · have hcontrib : (if nonBlank bad then parse bad else none) = none := by
      rcases hbad with hb | hb
      · rw [hb]
        rfl
      · rw [hb]
        split_ifs <;> rfl
    show List.filterMap _ (pre ++ bad :: post) = _
    rw [List.filterMap_append]
    congr 1
    show List.filterMap _ (bad :: post) = _
    rw [List.filterMap_cons, hcontrib]
    rfl
  · unfold BeadsWebSocketServer.onObserverMessage
    rw [hraw]

/-- Witness for C4: the stream "ok\nnope\nok" delivered in three chunks. -/
theorem C4_framing_witness :
    feedChunks cexParse [] [['o'], ['k', '\n', 'n'], ['o', 'p', 'e', '\n', 'o', 'k']] =
      handleData cexParse []
        ([['o'], ['k', '\n', 'n'], ['o', 'p', 'e', '\n', 'o', 'k']] : List (List Char)).flatten :=
  (C4_framing cexParse [['o'], ['k', '\n', 'n'], ['o', 'p', 'e', '\n', 'o', 'k']] []
    (by decide) [] [] ['x'] (Or.inr (by decide)) (fun _ => none) 1 0 ['x'] rfl
    BeadsWebSocketServer.cexHub).1

end BeadsRPCClient

namespace MutationPoller

/-- C5: the PollCursor is monotone and advances only on success.  `poll`
never decreases `lastEventId` (on a successful non-empty batch the new
cursor is the maximum of the old cursor and the batch's largest id, hence
is at least the old cursor); a poll while disconnected, a failed poll, and
an empty result all leave the state unchanged and emit nothing; `reset` —
the only operation that can decrease the cursor — sets it to zero. -/
theorem C5_cursor_monotone (connected : Bool)
    (result : Except String (List MutationEvent)) (st : PollerState) :
    st.lastEventId ≤ (poll connected result st).1.lastEventId ∧
    poll false result st = (st, []) ∧
    (∀ e : String, poll connected (Except.error e) st = (st, [])) ∧
    poll connected (Except.ok []) st = (st, []) ∧
    (reset st).lastEventId = 0 := by
  refine ⟨?_, ?_, ?_, ?_, rfl⟩
  · unfold poll
    cases connected with
    | false => simp
    | true =>
      rw [if_neg (by simp)]
      cases result with
      | error e => exact Nat.le_refl _
      | ok ms =>
        dsimp only
        by_cases hm : 0 < ms.length
        · rw [if_pos hm]
          dsimp only
          split_ifs with h2
          · exact Nat.le_of_lt h2
          · exact Nat.le_refl _
        · rw [if_neg hm]
  · simp [poll]
  · intro e
    cases connected <;> simp [poll]
  · cases connected <;> simp [poll]

/-- Witness for C5 at a concrete successful poll: cursor 3, batch with ids
5 and 4 — the cursor advances to 5 (which is at least 3). -/
theorem C5_cursor_monotone_witness :
    ({ lastEventId := 3, isPolling := true } : PollerState).lastEventId ≤
      (poll true (Except.ok
        [{ id := 5, timestamp := "t5", operation := "create", issue_id := "a" },
         { id := 4, timestamp := "t4", operation := "update", issue_id := "b" }])
        { lastEventId := 3, isPolling := true }).1.lastEventId :=
  (C5_cursor_monotone true (Except.ok
    [{ id := 5, timestamp := "t5", operation := "create", issue_id := "a" },
     { id := 4, timestamp := "t4", operation := "update", issue_id := "b" }])
    { lastEventId := 3, isPolling := true }).1

end MutationPoller

namespace BeadsWebSocketServer

/-- A freshly allocated counter value is not a key of the map, so
`handleConnection` appends: no existing entry is overwritten, the counter
advances and hub well-formedness is preserved. -/
theorem handleConnection_fresh (h : HubState) (hWF : WFHub h) (ws : Socket) (now : Nat) :
    h.nextClientId ∉ keys h.clients ∧
    (handleConnection ws now h).1.clients
      = h.clients ++ [(h.nextClientId, { ws := ws, id := h.nextClientId, lastPing := now })] ∧
    (handleConnection ws now h).1.nextClientId = h.nextClientId + 1 ∧
    WFHub (handleConnection ws now h).1 := by
  have hfresh : h.nextClientId ∉ keys h.clients := by
    intro hmem
    rcases List.mem_map.mp hmem with ⟨e, he, hk⟩
    exact absurd (hWF.2 e he) (by omega)
  have hcl : (handleConnection ws now h).1.clients
      = h.clients ++ [(h.nextClientId, { ws := ws, id := h.nextClientId, lastPing := now })] := by
    have hfresh' : h.nextClientId ∉ List.map (fun e => e.1) h.clients := hfresh
    unfold handleConnection mapSet
    dsimp only
    rw [if_neg hfresh']
  refine ⟨hfresh, hcl, rfl, ?_, ?_⟩
  · show (keys (handleConnection ws now h).1.clients).Nodup
    rw [hcl]
    unfold keys
    rw [List.map_append]
    refine List.Nodup.append hWF.1 (List.nodup_singleton _) ?_
    intro x hx hy
    simp only [List.map_cons, List.map_nil, List.mem_singleton] at hy
    subst hy
    exact hfresh hx
  · intro e he
    rw [hcl] at he
    show e.1 < h.nextClientId + 1
    rcases List.mem_append.mp he with h1 | h2
    · exact Nat.lt_trans (hWF.2 e h1) (by omega)
    · simp only [List.mem_singleton] at h2
      subst h2
      omega

/-- C10: observer identifiers come from the strictly increasing
`nextClientId` counter, so every accepted connection's identifier differs
from all previously generated ones; inserting the new Observer appends
rather than overwriting, and each accept grows the observer count by exactly
one (preserving well-formedness). -/
theorem C10_fresh_observer_id (h : HubState) (hWF : WFHub h) (ws : Socket) (now : Nat) :
    (handleConnection ws now h).2 = h.nextClientId ∧
    h.nextClientId ∉ keys h.clients ∧
    (∀ j, j ∈ keys h.clients → h.nextClientId ≠ j) ∧
    (handleConnection ws now h).1.clients
      = h.clients ++ [(h.nextClientId, { ws := ws, id := h.nextClientId, lastPing := now })] ∧
    getClientCount (handleConnection ws now h).1 = getClientCount h + 1 ∧
    (handleConnection ws now h).1.nextClientId = h.nextClientId + 1 ∧
    WFHub (handleConnection ws now h).1 := by
  obtain ⟨hf, hcl, hnext, hwf2⟩ := handleConnection_fresh h hWF ws now
  refine ⟨rfl, hf, ?_, hcl, ?_, hnext, hwf2⟩
  · intro j hj hco
    exact hf (hco ▸ hj)
  · unfold getClientCount
    rw [hcl]
    simp

/-- Witness for C10 at the concrete hub: the next identifier 4 is fresh and
the accept leaves the count at 4. -/
theorem C10_fresh_observer_id_witness :
    cexHub.nextClientId ∉ keys cexHub.clients ∧
    getClientCount (handleConnection okSocket 777 cexHub).1 = getClientCount cexHub + 1 :=
  ⟨(C10_fresh_observer_id cexHub (by decide) okSocket 777).2.1,
   (C10_fresh_observer_id cexHub (by decide) okSocket 777).2.2.2.2.1⟩

/-- `k` accepts preserve well-formedness and add exactly `k` observers. -/
theorem acceptK_facts (ws : Socket) (now : Nat) :
    ∀ (k : Nat) (h : HubState), WFHub h →
      WFHub (acceptK ws now h k) ∧
      getClientCount (acceptK ws now h k) = getClientCount h + k := by
  intro k
  induction k with
  | zero =>
    intro h hWF
    exact ⟨hWF, by simp [acceptK]⟩
  | succ k ih =>
    intro h hWF
    obtain ⟨hf, hcl, hnext, hwf2⟩ := handleConnection_fresh h hWF ws now
    obtain ⟨ihw, ihc⟩ := ih (handleConnection ws now h).1 hwf2
    refine ⟨ihw, ?_⟩
    show getClientCount (acceptK ws now (handleConnection ws now h).1 k) = _
    rw [ihc]
    unfold getClientCount at *
    rw [hcl]
    simp only [List.length_append, List.length_singleton]
    omega

/-- `mapDelete` keeps the key list duplicate-free. -/
theorem keys_mapDelete_nodup (j : Nat) (m : List (Nat × WSClient))
    (h : (keys m).Nodup) : (keys (mapDelete j m)).Nodup :=
  List.Nodup.sublist (List.Sublist.map _ (List.filter_sublist m)) h

/-- A different key survives `mapDelete`. -/
theorem mem_keys_mapDelete (j i : Nat) (m : List (Nat × WSClient))
    (him : i ∈ keys m) (hne : i ≠ j) : i ∈ keys (mapDelete j m) := by
  rcases List.mem_map.mp him with ⟨e, he, hk⟩
  refine List.mem_map.mpr ⟨e, List.mem_filter.mpr ⟨he, ?_⟩, hk⟩
  subst hk
  simpa using hne

/-- Deleting a present key from a duplicate-free map removes exactly one
entry. -/
theorem mapDelete_length (m : List (Nat × WSClient)) (j : Nat)
    (hnd : (keys m).Nodup) (hj : j ∈ keys m) :
    (mapDelete j m).length + 1 = m.length := by
  induction m with
  | nil => simp [keys] at hj
  | cons e m ih =>
    have hnd' := hnd
    unfold keys at hnd'
    rw [List.map_cons, List.nodup_cons] at hnd'
    by_cases he : e.1 = j
    · have hrest : mapDelete j (e :: m) = m := by
        unfold mapDelete
        rw [List.filter_cons, if_neg (by simpa using he)]
        rw [List.filter_eq_self.mpr]
        intro x hx
        simp only [decide_eq_true_eq]
        intro hco
        exact hnd'.1 (he ▸ hco ▸ List.mem_map.mpr ⟨x, hx, rfl⟩)
      rw [hrest]
      simp
    · have hj' : j ∈ keys m := by
        unfold keys at hj ⊢
        rcases List.mem_map.mp hj with ⟨x, hx, hk⟩
        rcases List.mem_cons.mp hx with h1 | h2
        · exact absurd (h1 ▸ hk) he
        · exact List.mem_map.mpr ⟨x, h2, hk⟩
      have hstep : mapDelete j (e :: m) = e :: mapDelete j m := by
        unfold mapDelete
        rw [List.filter_cons, if_pos (by simpa using he)]
      rw [hstep]
      simp only [List.length_cons]
      rw [ih hnd'.2 hj']

/-- Removing distinct, present observers one at a time removes exactly that
many entries. -/
theorem removeAll_count (js : List Nat) :
    ∀ (h : HubState), js.Nodup → (keys h.clients).Nodup →
      (∀ j ∈ js, j ∈ keys h.clients) →
      getClientCount (removeAll js h) + js.length = getClientCount h := by
  induction js with
  | nil =>
    intro h _ _ _
    simp [removeAll, getClientCount]
  | cons j js ih =>
    intro h hnd hkeys hmem
    have hnd2 : (keys (onSocketClose j h).clients).Nodup :=
      keys_mapDelete_nodup j h.clients hkeys
    have hmem2 : ∀ i ∈ js, i ∈ keys (onSocketClose j h).clients := by
      intro i hi
      have hne : i ≠ j := by
        intro hco
        subst hco
        exact (List.nodup_cons.mp hnd).1 hi
      exact mem_keys_mapDelete j i h.clients (hmem i (List.mem_cons_of_mem _ hi)) hne
    have h1 := ih (onSocketClose j h) (List.nodup_cons.mp hnd).2 hnd2 hmem2
    have h2 := mapDelete_length h.clients j hkeys (hmem j (List.mem_cons_self _ _))
    show getClientCount (removeAll js (onSocketClose j h)) + (j :: js).length = _
    simp only [List.length_cons]
    unfold getClientCount onSocketClose at *
    dsimp only at *
    omega

/-- Iterated `mapDelete` is filtering out the deleted keys. -/
theorem foldl_mapDelete (K : List Nat) :
    ∀ m : List (Nat × WSClient),
      K.foldl (fun m2 j => mapDelete j m2) m = m.filter (fun e => e.1 ∉ K) := by
  induction K with
  | nil =>
    intro m
    simp
  | cons k K ih =>
    intro m
    show K.foldl (fun m2 j => mapDelete j m2) (mapDelete k m) = _
    rw [ih]
    unfold mapDelete
    rw [List.filter_filter]
    apply List.filter_congr
    intro x hx
    simp only [List.mem_cons, not_or, decide_not, Bool.decide_and]
    cases hk : decide (x.1 = k) <;> cases hK : decide (x.1 ∈ K) <;> simp_all

/-- Characterization of one liveness-sweep fold step: the surviving map
filters out the keys of stale entries, the terminated keys are exactly the
stale entries' keys, and the probed keys are exactly the fresh entries with
open sockets. -/
theorem sweep_fold (now : Nat) (cs : List (Nat × WSClient)) :
    ∀ (hub : HubState) (term pinged : List Nat),
      cs.foldl
        (fun acc e =>
          if stale now e then
            ({ acc.1 with clients := mapDelete e.1 acc.1.clients },
             acc.2.1 ++ [e.1], acc.2.2)
          else if e.2.ws.readyState = OPEN then
            (acc.1, acc.2.1, acc.2.2 ++ [e.1])
          else acc)
        (hub, term, pinged) =
      ({ hub with clients := (hub.clients.filter (fun x =>
            x.1 ∉ (cs.filter (fun e => stale now e)).map (fun e => e.1))) },
       term ++ (cs.filter (fun e => stale now e)).map (fun e => e.1),
       pinged ++ (cs.filter
          (fun e => ¬ stale now e ∧ e.2.ws.readyState = OPEN)).map (fun e => e.1)) := by
  induction cs with
  | nil =>
    intro hub term pinged
    simp
  | cons e cs ih =>
    intro hub term pinged
    rw [List.foldl_cons]
    by_cases hs : stale now e
    · rw [if_pos hs, ih]
      rw [List.filter_cons_of_pos (by simpa using hs),
          List.filter_cons_of_neg (by simp [hs])]
      simp only [List.map_cons, HubState.mk.injEq, Prod.mk.injEq]
      refine ⟨⟨?_, trivial⟩, by simp, trivial⟩
      unfold mapDelete
      rw [List.filter_filter]
      apply List.filter_congr
      intro x hx
      simp only [List.mem_cons, not_or, decide_not, Bool.decide_and]
      cases h1 : decide (x.1 = e.1) <;> cases h2 : decide
        (x.1 ∈ (cs.filter (fun e2 => stale now e2)).map (fun e2 => e2.1)) <;> simp_all
    · rw [if_neg hs,
          List.filter_cons_of_neg (by simpa using hs)]
      by_cases ho : e.2.ws.readyState = OPEN
      · rw [if_pos ho, ih,
            List.filter_cons_of_pos (by simp [hs, ho])]
        simp
      · rw [if_neg ho, ih,
            List.filter_cons_of_neg (by simp [hs, ho])]

/-- C7: after accepting `k` observers and disconnecting `j ≤ k` distinct
ones of them, the observer count is `k - j` more than it started; the three
removal triggers — socket close, socket error and liveness eviction — all
act on the mapping through the same `clients.delete` path, leaving the
departed observer absent and every other entry untouched. -/
theorem C7_observer_count (h : HubState) (hWF : WFHub h) (ws : Socket) (now k : Nat)
    (js : List Nat) (hnd : js.Nodup)
    (hmem : ∀ j ∈ js, j ∈ keys (acceptK ws now h k).clients) :
    getClientCount (removeAll js (acceptK ws now h k)) + js.length
      = getClientCount h + k ∧
    getClientCount (removeAll js (acceptK ws now h k))
      = getClientCount h + k - js.length ∧
    (∀ j h2, onSocketClose j h2 = onSocketError j h2) ∧
    (∀ now2 h2, (sweepTick now2 h2).1.clients
        = (sweepTick now2 h2).2.1.foldl (fun m j => mapDelete j m) h2.clients) ∧
    (∀ j h2, j ∉ keys (onSocketClose j h2).clients) ∧
    (∀ j h2 e, e ∈ h2.clients → e.1 ≠ j → e ∈ (onSocketClose j h2).clients) := by
  obtain ⟨hwf2, hcount⟩ := acceptK_facts ws now k h hWF
  have hmain := removeAll_count js (acceptK ws now h k) hnd hwf2.1 hmem
  rw [hcount] at hmain
  refine ⟨hmain, by omega, fun j h2 => rfl, ?_, ?_, ?_⟩
  · intro now2 h2
    have hfold := sweep_fold now2 h2.clients h2 [] []
    show (sweepTick now2 h2).1.clients = _
    unfold sweepTick
    rw [hfold]
    simp only [List.nil_append]
    rw [foldl_mapDelete]
  · intro j h2 hmem2
    rcases List.mem_map.mp hmem2 with ⟨e, he, hk⟩
    have := List.of_mem_filter he
    simp only [decide_eq_true_eq] at this
    exact this hk
  · intro j h2 e he hne
    exact List.mem_filter.mpr ⟨he, by simpa using hne⟩

/-- Witness for C7: accept three observers into an empty hub, then
disconnect observers 0 and 2; one observer remains. -/
theorem C7_observer_count_witness :
    getClientCount
      (removeAll [0, 2] (acceptK okSocket 5 { clients := [], nextClientId := 0 } 3))
      = getClientCount { clients := [], nextClientId := 0 } + 3 - ([0, 2] : List Nat).length :=
  (C7_observer_count { clients := [], nextClientId := 0 } (by decide) okSocket 5 3
    [0, 2] (by decide) (by decide)).2.1

/-- Characterization of the broadcast loop: `send` is invoked with the same
bytes for exactly the open-socket clients, in map order, regardless of
earlier failures, and the success counter counts the open clients whose send
did not throw. -/
theorem broadcast_foldl_char (data : String) (cs : List (Nat × WSClient)) :
    ∀ acc : List (Nat × String) × Nat,
      cs.foldl
        (fun acc e =>
          if e.2.ws.readyState = OPEN then
            (acc.1 ++ [(e.1, data)], if e.2.ws.sendFails then acc.2 else acc.2 + 1)
          else acc)
        acc =
      (acc.1 ++ (cs.filter (fun e => e.2.ws.readyState = OPEN)).map
          (fun e => (e.1, data)),
       acc.2 + (cs.filter
          (fun e => e.2.ws.readyState = OPEN ∧ e.2.ws.sendFails = false)).length) := by
  induction cs with
  | nil =>
    intro acc
    simp
  | cons e cs ih =>
    intro acc
    rw [List.foldl_cons]
    by_cases ho : e.2.ws.readyState = OPEN
    · rw [if_pos ho, ih, List.filter_cons_of_pos (by simpa using ho)]
      cases hf : e.2.ws.sendFails with
      | false =>
        rw [List.filter_cons_of_pos (by simp [ho, hf]), Prod.ext_iff]
        refine ⟨by simp, ?_⟩
        simp only [hf, if_false, Bool.false_eq_true, List.length_cons]
        ring
      | true =>
        rw [List.filter_cons_of_neg (by simp [hf]), Prod.ext_iff]
        refine ⟨by simp, ?_⟩
        simp [hf]
    · rw [if_neg ho, ih, List.filter_cons_of_neg (by simpa using ho),
          List.filter_cons_of_neg (by simp [ho])]

/-- C6: broadcast fan-out.  `broadcast` serializes the notification once and
invokes `send` with those same bytes for exactly the tracked observers whose
sockets are open, in map order: a throwing send is caught and delivery still
reaches every remaining observer, the success count is the number of open
observers whose send did not throw, every delivered payload is the one
serialization, and an observer absent from the map receives nothing. -/
theorem C6_broadcast_fanout (stringify : WebSocketMessage → String)
    (msg : WebSocketMessage) (h : HubState) :
    (broadcast stringify msg h).1 =
      (h.clients.filter (fun e => e.2.ws.readyState = OPEN)).map
        (fun e => (e.1, stringify msg)) ∧
    (broadcast stringify msg h).2 =
      (h.clients.filter
        (fun e => e.2.ws.readyState = OPEN ∧ e.2.ws.sendFails = false)).length ∧
    (∀ p ∈ (broadcast stringify msg h).1, p.2 = stringify msg) ∧
    (∀ idq : Nat, idq ∉ keys h.clients →
      ∀ p ∈ (broadcast stringify msg h).1, p.1 ≠ idq) := by
  have hchar := broadcast_foldl_char (stringify msg) h.clients ([], 0)
  have hb : broadcast stringify msg h =
      ((h.clients.filter (fun e => e.2.ws.readyState = OPEN)).map
          (fun e => (e.1, stringify msg)),
       (h.clients.filter
          (fun e => e.2.ws.readyState = OPEN ∧ e.2.ws.sendFails = false)).length) := by
    show h.clients.foldl _ ([], 0) = _
    rw [hchar]
    simp
  rw [hb]
  refine ⟨rfl, rfl, ?_, ?_⟩
  · intro p hp
    rcases List.mem_map.mp hp with ⟨e, he, hpe⟩
    rw [← hpe]
  · intro idq hid p hp hco
    rcases List.mem_map.mp hp with ⟨e, he, hpe⟩
    apply hid
    rw [← hco, ← hpe]
    exact List.mem_map.mpr ⟨e, List.mem_of_mem_filter he, rfl⟩

/-- Witness for C6 at the concrete hub: the two open observers each get the
serialized payload; the absent observer 7 gets nothing. -/
theorem C6_broadcast_fanout_witness :
    (broadcast cexStringify cexMsg cexHub).1 =
      (cexHub.clients.filter (fun e => e.2.ws.readyState = OPEN)).map
        (fun e => (e.1, cexStringify cexMsg)) ∧
    (∀ p ∈ (broadcast cexStringify cexMsg cexHub).1, p.1 ≠ 7) :=
  ⟨(C6_broadcast_fanout cexStringify cexMsg cexHub).1,
   fun p hp => (C6_broadcast_fanout cexStringify cexMsg cexHub).2.2.2 7 (by decide) p hp⟩

/-- C8 counterexample: at time 100000 the sweep evicts the stale observer 2,
but observer 3 — fresh, tracked, yet with a non-open socket — remains
tracked and is NOT sent a keepalive probe, refuting the claim that every
non-evicted observer is sent one (server.ts guards the ping with
`readyState === WebSocket.OPEN`). -/
theorem C8_counterexample :
    (2, { ws := okSocket, id := 2, lastPing := 0 }) ∈ cexHub.clients ∧
    stale 100000 (2, { ws := okSocket, id := 2, lastPing := 0 }) ∧
    2 ∈ (sweepTick 100000 cexHub).2.1 ∧
    2 ∉ keys (sweepTick 100000 cexHub).1.clients ∧
    (3, { ws := closedSocket, id := 3, lastPing := 100000 }) ∈ cexHub.clients ∧
    ¬ stale 100000 (3, { ws := closedSocket, id := 3, lastPing := 100000 }) ∧
    (3, { ws := closedSocket, id := 3, lastPing := 100000 })
      ∈ (sweepTick 100000 cexHub).1.clients ∧
    3 ∉ (sweepTick 100000 cexHub).2.2 := by
  decide

/-- C8 (amended): on every sweep tick, each observer whose last liveness
acknowledgment is older than the 60000 ms window is terminated and removed
from the mapping, while every other observer remains tracked with its entry
untouched and is sent a keepalive probe exactly when its socket is
currently open; the sweep runs every 30000 ms. -/
theorem C8_liveness_sweep (now : Nat) (h : HubState) (hWF : WFHub h) :
    (∀ e ∈ h.clients, stale now e →
      e.1 ∈ (sweepTick now h).2.1 ∧ e.1 ∉ keys (sweepTick now h).1.clients) ∧
    (∀ e ∈ h.clients, ¬ stale now e →
      e ∈ (sweepTick now h).1.clients ∧
      (e.2.ws.readyState = OPEN → e.1 ∈ (sweepTick now h).2.2) ∧
      (¬ e.2.ws.readyState = OPEN → e.1 ∉ (sweepTick now h).2.2)) ∧
    (∀ e : Nat × WSClient, stale now e ↔ pingTimeoutMs < now - e.2.lastPing) ∧
    pingTimeoutMs = 60000 ∧ pingIntervalMs = 30000 := by
  have hfold := sweep_fold now h.clients h [] []
  have h1 : (sweepTick now h).1.clients = h.clients.filter (fun x =>
      x.1 ∉ (h.clients.filter (fun e => stale now e)).map (fun e => e.1)) := by
    show (h.clients.foldl _ (h, [], [])).1.clients = _
    rw [hfold]
  have h2 : (sweepTick now h).2.1
      = (h.clients.filter (fun e => stale now e)).map (fun e => e.1) := by
    show (h.clients.foldl _ (h, [], [])).2.1 = _
    rw [hfold]
    simp
  have h3 : (sweepTick now h).2.2
      = (h.clients.filter
          (fun e => ¬ stale now e ∧ e.2.ws.readyState = OPEN)).map (fun e => e.1) := by
    show (h.clients.foldl _ (h, [], [])).2.2 = _
    rw [hfold]
    simp
  have hinj := List.inj_on_of_nodup_map hWF.1
  refine ⟨?_, ?_, fun e => Iff.rfl, rfl, rfl⟩
  · intro e he hs
    have hterm : e.1 ∈ (sweepTick now h).2.1 := by
      rw [h2]
      exact List.mem_map.mpr ⟨e, List.mem_filter.mpr ⟨he, by simpa using hs⟩, rfl⟩
    refine ⟨hterm, ?_⟩
    rw [h1]
    intro hmem
    rcases List.mem_map.mp hmem with ⟨x, hx, hk⟩
    have hx2 := List.of_mem_filter hx
    rw [h2] at hterm
    simp only [decide_eq_true_eq] at hx2
    exact hx2 (hk ▸ hterm)
  · intro e he hs
    have hnotin : e.1 ∉ (h.clients.filter (fun e2 => stale now e2)).map (fun e2 => e2.1) := by
      intro hmem
      rcases List.mem_map.mp hmem with ⟨x, hx, hk⟩
      have hxeq : x = e := hinj (List.mem_of_mem_filter hx) he hk
      have := List.of_mem_filter hx
      rw [hxeq] at this
      simp only [decide_eq_true_eq] at this
      exact hs this
    refine ⟨?_, ?_, ?_⟩
    · rw [h1]
      exact List.mem_filter.mpr ⟨he, by simpa using hnotin⟩
    · intro ho
      rw [h3]
      exact List.mem_map.mpr ⟨e, List.mem_filter.mpr ⟨he, by simp [hs, ho]⟩, rfl⟩
    · intro ho
      rw [h3]
      intro hmem
      rcases List.mem_map.mp hmem with ⟨x, hx, hk⟩
      have hxeq : x = e := hinj (List.mem_of_mem_filter hx) he hk
      have := List.of_mem_filter hx
      rw [hxeq] at this
      simp only [decide_eq_true_eq] at this
      exact ho this.2

/-- Witness for C8 at the concrete hub: the stale observer 2 is terminated
and removed by the sweep at time 100000. -/
theorem C8_liveness_sweep_witness :
    2 ∈ (sweepTick 100000 cexHub).2.1 ∧
    2 ∉ keys (sweepTick 100000 cexHub).1.clients :=
  (C8_liveness_sweep 100000 cexHub (by decide)).1
    (2, { ws := okSocket, id := 2, lastPing := 0 }) (by decide) (by decide)

end BeadsWebSocketServer
